import Mathlib

/-!
# Verification of the DeepSearchAgentDemo research pipeline

Shallow embedding of the deep-research pipeline (src/deep_research/agent.py,
src/deep_research/llms/deepseek.py, src/src/utils/config.py) together with the
parts of the repository that agent.py imports but that are absent from src/
(deep_research/state.py, deep_research/nodes, deep_research/tools,
deep_research/llms/base.py).  Absent parts are modelled from the specification
and carry a doc comment starting with `Modelled from the spec:`; everything
else is translated from the source files.

External collaborators (the LLM provider and the Tavily web search) are
modelled as oracles: structures of functions from the stage inputs to the
collaborator's outcome, so that every pipeline function stays executable.
-/

namespace DeepResearch

/-! ## Data model

`deep_research/state.py` is imported by agent.py but is not under src/; the
record types below are modelled from spec section 3, with the field names that
src/examples/streamlit_app.py reads off the live objects (`paragraphs`,
`research.search_history`, `research.reflection_iteration`,
`research.latest_summary`). -/

/-- Modelled from the spec: a SearchResult payload from the search
collaborator (url, title, content, optional numeric relevance score). -/
structure SearchResult where
  url : String
  title : String
  content : String
  score : Option Rat
  deriving DecidableEq, Repr

/-- Modelled from the spec: a SearchEvent records the query together with the
(possibly empty) ordered result list. -/
structure SearchEvent where
  query : String
  results : List SearchResult
  deriving DecidableEq, Repr

/-- Modelled from the spec: the ResearchProgress record owned by one section. -/
structure Research where
  search_history : List SearchEvent := []
  reflection_iteration : Nat := 0
  latest_summary : String := ""
  completed : Bool := false
  deriving DecidableEq, Repr

/-- Modelled from the spec: Research.add_search_results appends one
SearchEvent to the append-only history, also when the result list is empty. -/
def Research.add_search_results (r : Research) (q : String)
    (rs : List SearchResult) : Research :=
  { r with search_history := r.search_history ++ [⟨q, rs⟩] }

/-- Modelled from the spec: Research.mark_completed sets the completed flag. -/
def Research.mark_completed (r : Research) : Research :=
  { r with completed := true }

/-- Modelled from the spec: one planned section of the report (the repository
calls sections paragraphs). -/
structure Paragraph where
  title : String
  content : String
  research : Research := {}
  deriving DecidableEq, Repr

/-- Modelled from the spec: the session status enum, monotone along a run. -/
inductive Status where
  | created
  | inProgress
  | completed
  deriving DecidableEq, Repr

/-- Numeric rank of a status, used to state that status never regresses. -/
def Status.toNat : Status → Nat
  | .created => 0
  | .inProgress => 1
  | .completed => 2

/-- Modelled from the spec: the ResearchSession root record (the repository
calls it State); final_report empty means unset. -/
structure State where
  query : String := ""
  report_title : String := ""
  paragraphs : List Paragraph := []
  status : Status := .created
  final_report : String := ""
  deriving DecidableEq, Repr

/-- Modelled from the spec: create(query) yields a fresh session. -/
def State.create (q : String) : State := { query := q }

/-- Modelled from the spec: State.mark_completed flips the status to
Completed (agent.py calls it right after setting final_report). -/
def State.mark_completed (st : State) : State :=
  { st with status := .completed }

/-! ## C7: DeepSeekLLM.invoke (src/deep_research/llms/deepseek.py) -/

/-- An LLM stage failure (a raised exception carrying a reason). -/
structure LLMFailure where
  reason : String
  deriving DecidableEq, Repr

/-- The message object of one chat completion choice; content may be null. -/
structure ChatMessage where
  content : Option String
  deriving DecidableEq, Repr

/-- One choice of a provider chat completion; message may be missing. -/
structure ChatChoice where
  message : Option ChatMessage
  deriving DecidableEq, Repr

/-- Outcome of the provider call `client.chat.completions.create`: either a
response object with a list of choices, or a raised exception (provider
error or timeout). -/
inductive ProviderOutcome where
  | response (choices : List ChatChoice)
  | exceptionRaised (msg : String)
  deriving DecidableEq, Repr

/-- Modelled from the spec: BaseLLM.validate_response
(deep_research/llms/base.py is not under src/); the language-model capability
fails with LLMFailure on an empty or invalid response. -/
def validate_response : Option String → Except LLMFailure String
  | none => .error ⟨"invalid response"⟩
  | some s => if s = "" then .error ⟨"empty response"⟩ else .ok s

/-- DeepSeekLLM.invoke, deepseek.py lines 42-82: on a raised provider
exception it re-raises; if the response has choices and the first choice has a
message it validates that message's content; otherwise it returns the empty
string. -/
def DeepSeekLLM.invoke (outcome : ProviderOutcome) : Except LLMFailure String :=
  match outcome with
  | .exceptionRaised m => .error ⟨m⟩
  | .response choices =>
    match choices with
    | [] => .ok ""
    | c :: _ =>
      match c.message with
      | none => .ok ""
      | some m => validate_response m.content

/-! ## C8: report filename sanitization (agent.py lines 290-298) -/

/-- The character predicate of `c.isalnum() or c in (' ', '-', '_')`
(agent.py line 294).  Python isalnum is Unicode-aware; it is modelled by
Char.isAlphanum, which agrees on the ASCII range. -/
def allowedChar (c : Char) : Bool :=
  c.isAlphanum || c = ' ' || c = '-' || c = '_'

/-- Python str.rstrip on the filtered text: it drops trailing whitespace, and
after the filter of line 294 the only whitespace left is the space. -/
def rstripSpaces (cs : List Char) : List Char :=
  (cs.reverse.dropWhile fun c => c = ' ').reverse

/-- The sanitized query fragment of agent.py lines 294-295: keep only
alphanumerics, space, hyphen and underscore; strip trailing spaces; replace
each space by an underscore; keep the first 30 characters. -/
def querySafe (q : String) : String :=
  let kept := q.data.filter allowedChar
  let stripped := rstripSpaces kept
  let underscored := stripped.map fun c => if c = ' ' then '_' else c
  String.mk (underscored.take 30)

/-- The report filename of agent.py line 297. -/
def reportFilename (q timestamp : String) : String :=
  "deep_search_report_" ++ querySafe q ++ "_" ++ timestamp ++ ".md"

/-- The sanitized fragment as claim C8 words it: remove every character that
is not alphanumeric and not a space, hyphen or underscore, then truncate the
result to a bounded prefix length. -/
def querySafeClaim (bound : Nat) (q : String) : String :=
  String.mk ((q.data.filter allowedChar).take bound)

/-! ## C10: configuration loading (src/src/utils/config.py) -/

/-- The Config dataclass of config.py with its dataclass defaults. -/
structure Config where
  deepseek_api_key : Option String := none
  openai_api_key : Option String := none
  tavily_api_key : Option String := none
  default_llm_provider : String := "deepseek"
  deepseek_model : String := "deepseek-chat"
  openai_model : String := "gpt-4o-mini"
  max_search_results : Nat := 3
  search_timeout : Nat := 240
  max_content_length : Nat := 20000
  max_reflections : Nat := 2
  max_paragraphs : Nat := 5
  output_dir : String := "reports"
  save_intermediate_states : Bool := true
  deriving DecidableEq, Repr

/-- The environment variables that decide Config.validate.  The numeric
variables of from_env are parsed with int() and do not take part in key
validation; they are left at their defaults in this model. -/
structure EnvVars where
  deepseek_api_key : Option String := none
  openai_api_key : Option String := none
  tavily_api_key : Option String := none
  default_llm_provider : Option String := none
  deriving DecidableEq, Repr

/-- Python truthiness of an optional string: None and the empty string are
falsy. -/
def truthy : Option String → Bool
  | none => false
  | some s => !(s == "")

/-- Config.from_env, config.py lines 55-72: os.getenv for the keys and the
provider (with default deepseek). -/
def Config.from_env (e : EnvVars) : Config :=
  { deepseek_api_key := e.deepseek_api_key
    openai_api_key := e.openai_api_key
    tavily_api_key := e.tavily_api_key
    default_llm_provider := e.default_llm_provider.getD "deepseek" }

/-- Config.validate, config.py lines 38-53. -/
def Config.validate (c : Config) : Bool :=
  if c.default_llm_provider == "deepseek" && !(truthy c.deepseek_api_key) then
    false
  else if c.default_llm_provider == "openai" && !(truthy c.openai_api_key) then
    false
  else if !(truthy c.tavily_api_key) then
    false
  else
    true

/-- The ValueError raised by load_config when validation fails. -/
inductive ConfigError where
  | valueError (msg : String)
  deriving DecidableEq, Repr

/-- load_config, config.py lines 75-103: build the config from the
environment and raise ValueError when validate fails. -/
def load_config (e : EnvVars) : Except ConfigError Config :=
  let c := Config.from_env e
  if c.validate then .ok c else .error (.valueError "config validation failed")

/-- The required-key condition of claim C10: the key of the selected provider
(DeepSeek key for deepseek, OpenAI key for openai) and the Tavily key. -/
def requiredKeysOk (e : EnvVars) : Bool :=
  let p := e.default_llm_provider.getD "deepseek"
  (!(p == "deepseek") || truthy e.deepseek_api_key) &&
    (!(p == "openai") || truthy e.openai_api_key) &&
    truthy e.tavily_api_key

/-! ## Pipeline embedding (src/deep_research/agent.py)

The LLM collaborator is an oracle assigning to every stage input the stage's
parsed outcome; the web-search collaborator is an oracle assigning to every
query the raw outcome of the Tavily call.  A pipeline step returns a
`PResult`: the updated session, or a raised LLMFailure together with the
session at the moment of the raise (Python keeps the mutations made before
the exception on `self.state`). -/

/-- Result of a pipeline phase: success with the updated session, or a raised
LLM failure with the session as already mutated at that point. -/
inductive PResult where
  | ok (st : State)
  | err (e : LLMFailure) (st : State)
  deriving DecidableEq, Repr

/-- The session carried by a `PResult`, whether or not the phase failed. -/
def PResult.state : PResult → State
  | .ok st => st
  | .err _ st => st

/-- The LLM collaborator, one oracle per stage.  The query-formulation stages
(deep_research/nodes, not under src/) return the parsed search query and
reasoning; the summary stages return the synthesized text; each stage either
returns a well-formed output or raises an LLMFailure (spec section 4.1). -/
structure LLMEnv where
  outline : String → Except LLMFailure (String × List (String × String))
  firstSearch : String → String → Except LLMFailure (String × String)
  reflection : String → String → String → Except LLMFailure (String × String)
  firstSummary : String → String → String → String → Except LLMFailure String
  reflectionSummary :
    String → String → String → String → String → Except LLMFailure String
  formatReport : List (String × String) → Except LLMFailure String

/-- Raw outcome of one Tavily web-search call. -/
inductive SearchOutcome where
  | results (rs : List SearchResult)
  | timeout
  | transportError (msg : String)
  deriving DecidableEq, Repr

/-- The web-search collaborator. -/
structure SearchEnv where
  fetch : String → SearchOutcome

/-- Modelled from the spec: deep_research/tools.tavily_search (not under
src/) never throws; a timeout or transport error degrades to the empty
result list at the core's boundary (spec sections 4.3 and 6). -/
def tavily_search : SearchOutcome → List SearchResult
  | .results rs => rs
  | .timeout => []
  | .transportError _ => []

/-- Modelled from the spec: format_search_results_for_prompt (deep_research/
utils, not under src/) truncates each result's content to max_content_length
characters before building the synthesis prompt (spec section 4.3). -/
def format_search_results_for_prompt
    (rs : List SearchResult) (maxLen : Nat) : String :=
  String.join (rs.map fun r =>
    r.title ++ "\n" ++ r.url ++ "\n" ++ r.content.take maxLen ++ "\n")

/-- Replace the research record of the paragraph at the given index, leaving
the rest of the list unchanged. -/
def updResearch (f : Research → Research) : Nat → List Paragraph → List Paragraph
  | _, [] => []
  | 0, p :: ps => { p with research := f p.research } :: ps
  | i + 1, p :: ps => p :: updResearch f i ps

/-- Apply a research update to one section of the session. -/
def State.updateResearch (st : State) (i : Nat) (f : Research → Research) :
    State :=
  { st with paragraphs := updResearch f i st.paragraphs }

/-- DeepSearchAgent._initial_search_and_summary, agent.py lines 148-204:
formulate the initial query, search (degrading to the empty list), append the
SearchEvent to the section's history, then let the initial-summary mutating
stage overwrite the section's latest_summary.  The mutating stage itself is
modelled from the spec: it updates exactly the targeted section's
latestSummary (spec section 4.1). -/
def initialSearchAndSummary (cfg : Config) (env : LLMEnv) (web : SearchEnv)
    (st : State) (i : Nat) : PResult :=
  match st.paragraphs[i]? with
  | none => .ok st
  | some p =>
    match env.firstSearch p.title p.content with
    | .error e => .err e st
    | .ok (sq, _) =>
      let rs := tavily_search (web.fetch sq)
      let st1 := st.updateResearch i fun r => r.add_search_results sq rs
      match env.firstSummary p.title p.content sq
        (format_search_results_for_prompt rs cfg.max_content_length) with
      | .error e => .err e st1
      | .ok s => .ok (st1.updateResearch i fun r => { r with latest_summary := s })

/-- One round of DeepSearchAgent._reflection_loop, agent.py lines 210-259:
formulate a reflection query from the current summary, search (degrading to
the empty list), append the SearchEvent, then let the reflection-summary
mutating stage overwrite latest_summary.  That stage is modelled from the
spec: it replaces the summary and accounts for the executed reflection round
(reflectionCount counts the rounds actually executed, spec section 3). -/
def reflectionRound (cfg : Config) (env : LLMEnv) (web : SearchEnv)
    (st : State) (i : Nat) : PResult :=
  match st.paragraphs[i]? with
  | none => .ok st
  | some p =>
    match env.reflection p.title p.content p.research.latest_summary with
    | .error e => .err e st
    | .ok (sq, _) =>
      let rs := tavily_search (web.fetch sq)
      let st1 := st.updateResearch i fun r => r.add_search_results sq rs
      match env.reflectionSummary p.title p.content sq
        (format_search_results_for_prompt rs cfg.max_content_length)
        p.research.latest_summary with
      | .error e => .err e st1
      | .ok s => .ok (st1.updateResearch i fun r =>
          { r with latest_summary := s,
                   reflection_iteration := r.reflection_iteration + 1 })

/-- The reflection loop, agent.py line 210: `for reflection_i in
range(self.config.max_reflections)` — a fixed round count with no early
stop; the first argument is the number of rounds still to run. -/
def reflectionLoop (cfg : Config) (env : LLMEnv) (web : SearchEnv) :
    Nat → State → Nat → PResult
  | 0, st, _ => .ok st
  | n + 1, st, i =>
    match reflectionRound cfg env web st i with
    | .err e st1 => .err e st1
    | .ok st1 => reflectionLoop cfg env web n st1 i

/-- The per-section completion mark of agent.py line 143:
`self.state.paragraphs[i].research.mark_completed()`. -/
def markParagraphCompleted (st : State) (i : Nat) : State :=
  st.updateResearch i Research.mark_completed

/-- One iteration of DeepSearchAgent._process_paragraphs, agent.py lines
132-146: initial search and summary, then the reflection loop, then mark the
section completed. -/
def processParagraph (cfg : Config) (env : LLMEnv) (web : SearchEnv)
    (st : State) (i : Nat) : PResult :=
  match initialSearchAndSummary cfg env web st i with
  | .err e st1 => .err e st1
  | .ok st1 =>
    match reflectionLoop cfg env web cfg.max_reflections st1 i with
    | .err e st2 => .err e st2
    | .ok st2 => .ok (markParagraphCompleted st2 i)

/-- Sections from index `i`, `k` of them, processed strictly in order; an
LLM failure aborts the remaining sections. -/
def processList (cfg : Config) (env : LLMEnv) (web : SearchEnv) :
    Nat → Nat → State → PResult
  | _, 0, st => .ok st
  | i, k + 1, st =>
    match processParagraph cfg env web st i with
    | .err e st1 => .err e st1
    | .ok st1 => processList cfg env web (i + 1) k st1

/-- DeepSearchAgent._process_paragraphs, agent.py lines 128-146. -/
def processParagraphs (cfg : Config) (env : LLMEnv) (web : SearchEnv)
    (st : State) : PResult :=
  processList cfg env web 0 st.paragraphs.length st

/-- DeepSearchAgent._generate_report_structure, agent.py lines 114-126.  The
outline mutating stage (ReportStructureNode, not under src/) is modelled from
the spec: it populates reportTitle and the sections with fresh research
records and flips the status to InProgress (spec sections 3 and 4.1). -/
def generateReportStructure (env : LLMEnv) (q : String) (st : State) : PResult :=
  match env.outline q with
  | .error e => .err e st
  | .ok (title, secs) =>
    .ok { st with
          report_title := title
          paragraphs := secs.map fun tc =>
            { title := tc.1, content := tc.2, research := {} }
          status := .inProgress }

/-- The `report_data` list of agent.py lines 266-271: the ordered
(title, latest summary) pairs of all sections. -/
def reportData (st : State) : List (String × String) :=
  st.paragraphs.map fun p => (p.title, p.research.latest_summary)

/-- The per-section part of the fallback concatenation of spec section 4.4:
for each (title, latestSummary) pair in order, a section heading followed by
the summary. -/
def sectionsConcat : List (String × String) → String
  | [] => ""
  | td :: rest => "## " ++ td.1 ++ "\n\n" ++ td.2 ++ "\n\n" ++ sectionsConcat rest

/-- Modelled from the spec: ReportFormattingNode.format_report_manually (not
under src/) deterministically concatenates the report title heading and, for
each section in order, its title heading and latest summary (spec section
4.4). -/
def format_report_manually (data : List (String × String)) (title : String) :
    String :=
  "# " ++ title ++ "\n\n" ++ sectionsConcat data

/-- DeepSearchAgent._generate_final_report, agent.py lines 261-288: try the
LLM formatting stage, fall back to the deterministic concatenation on any
failure, set final_report and immediately mark the session completed.  This
phase is total. -/
def generateFinalReport (env : LLMEnv) (st : State) : State :=
  let data := reportData st
  let fr :=
    match env.formatReport data with
    | .ok s => s
    | .error _ => format_report_manually data st.report_title
  State.mark_completed { st with final_report := fr }

/-- DeepSearchAgent.research, agent.py lines 75-112: structure generation,
section processing, final assembly; the try/except re-raises any exception
unchanged, so failures propagate to the caller. -/
def research (cfg : Config) (env : LLMEnv) (web : SearchEnv) (q : String) :
    PResult :=
  match generateReportStructure env q (State.create q) with
  | .err e st => .err e st
  | .ok st1 =>
    match processParagraphs cfg env web st1 with
    | .err e st => .err e st
    | .ok st2 => .ok (generateFinalReport env st2)

/-- The LLM contract of spec section 6 restricted to the text-producing
stages: a completion that succeeds is never empty. -/
def LLMEnv.SummariesNonempty (env : LLMEnv) : Prop :=
  (∀ a b c d s, env.firstSummary a b c d = .ok s → s ≠ "") ∧
  (∀ a b c d e s, env.reflectionSummary a b c d e = .ok s → s ≠ "") ∧
  (∀ d s, env.formatReport d = .ok s → s ≠ "")

/-- An LLM collaborator that never fails during section processing. -/
def LLMEnv.SectionTotal (env : LLMEnv) : Prop :=
  (∀ a b, ∃ o, env.firstSearch a b = .ok o) ∧
  (∀ a b c, ∃ o, env.reflection a b c = .ok o) ∧
  (∀ a b c d, ∃ o, env.firstSummary a b c d = .ok o) ∧
  (∀ a b c d e, ∃ o, env.reflectionSummary a b c d e = .ok o)

/-- The two sessions agree on everything except possibly the section at
index `i`. -/
def AgreesOff (st st' : State) (i : Nat) : Prop :=
  st'.query = st.query ∧ st'.report_title = st.report_title ∧
  st'.status = st.status ∧ st'.final_report = st.final_report ∧
  st'.paragraphs.length = st.paragraphs.length ∧
  ∀ j, j ≠ i → st'.paragraphs[j]? = st.paragraphs[j]?

/-! ## Concrete collaborator instances

Closed instances of the oracles and of a mid-pipeline session, used to
instantiate the universally quantified theorems below at concrete inputs. -/

/-- An LLM collaborator whose every stage succeeds with fixed non-empty
outputs. -/
def envOkW : LLMEnv where
  outline := fun _ => .ok ("Report T", [("Sec A", "about A")])
  firstSearch := fun _ _ => .ok ("initial query", "why")
  reflection := fun _ _ _ => .ok ("reflection query", "why")
  firstSummary := fun _ _ _ _ => .ok "first summary"
  reflectionSummary := fun _ _ _ _ _ => .ok "reflection summary"
  formatReport := fun _ => .ok "formatted report"

/-- envOkW with the initial-summary stage failing on the section titled
"Sec B". -/
def envFailBW : LLMEnv :=
  { envOkW with
    firstSummary := fun t _ _ _ =>
      if t = "Sec B" then .error ⟨"summary failed"⟩ else .ok "first summary" }

/-- envOkW with the report-formatting stage failing on every input. -/
def envFailFormatW : LLMEnv :=
  { envOkW with formatReport := fun _ => .error ⟨"formatting failed"⟩ }

/-- A web-search collaborator that times out on every call. -/
def webTimeoutW : SearchEnv where
  fetch := fun _ => .timeout

/-- A web-search collaborator returning one fixed result on every call. -/
def webOkW : SearchEnv where
  fetch := fun _ =>
    .results [{ url := "http://example", title := "hit", content := "text",
                score := some 1 }]

/-- A configuration with a single reflection round. -/
def cfgW : Config := { max_reflections := 1 }

/-- A mid-pipeline session holding two planned, not yet processed sections. -/
def stW : State :=
  { query := "demo query"
    report_title := "Report T"
    paragraphs := [⟨"Sec A", "about A", {}⟩, ⟨"Sec B", "about B", {}⟩]
    status := .inProgress }

/-- The first section of the demo session after a full successful run of
section processing (used to state a closed instance of the C1 claim). -/
def c1WitnessPara : Paragraph :=
  ((processParagraphs cfgW envOkW webOkW stW).state.paragraphs[0]?).getD
    ⟨"", "", {}⟩

/-- The session after section 0 of stW has been processed under envFailBW
(the LLM that fails on the initial summary of "Sec B"). -/
def stMidW : State := (processList cfgW envFailBW webOkW 0 1 stW).state

/-- The session at the moment the initial-summary stage for section 1 of
stMidW raises. -/
def stFailW : State :=
  (initialSearchAndSummary cfgW envFailBW webOkW stMidW 1).state

/-! ## Predicates used by the session-level claims -/

/-- `ContainsInOrder doc parts`: the strings of `parts` occur in `doc`, in
order and without overlap — `doc` splits as filler, the first part, and a
remainder containing the remaining parts in order. -/
inductive ContainsInOrder : String → List String → Prop where
  | nil (s : String) : ContainsInOrder s []
  | cons (pre p rest : String) (parts : List String) :
      ContainsInOrder rest parts →
      ContainsInOrder (pre ++ (p ++ rest)) (p :: parts)

/-- The interleaved list of every section's title and latest summary, in
outline order. -/
def titleSummaryList : List Paragraph → List String
  | [] => []
  | p :: ps => p.title :: p.research.latest_summary :: titleSummaryList ps

/-- One observable transition of a single research run, at the granularity of
agent.py's stage calls: outline generation from the fresh session, the
per-section phases while the session is in progress, and final assembly
(which sets final_report and immediately marks the session completed, lines
283-284 — one atomic transition here, as the spec's "immediately followed
by" describes).  Failing phases transition to the session as mutated at the
raise. -/
inductive PipeStep (cfg : Config) (env : LLMEnv) (web : SearchEnv)
    (q : String) : State → State → Prop where
  | outlineStep (st : State) : st.status = .created →
      PipeStep cfg env web q st (generateReportStructure env q st).state
  | initialStep (st : State) (i : Nat) : st.status = .inProgress →
      PipeStep cfg env web q st (initialSearchAndSummary cfg env web st i).state
  | reflectStep (st : State) (i : Nat) : st.status = .inProgress →
      PipeStep cfg env web q st (reflectionRound cfg env web st i).state
  | markStep (st : State) (i : Nat) : st.status = .inProgress →
      PipeStep cfg env web q st (markParagraphCompleted st i)
  | assembleStep (st : State) : st.status = .inProgress →
      PipeStep cfg env web q st (generateFinalReport env st)

/-- A session state reachable along one research run for query `q`. -/
def Reachable (cfg : Config) (env : LLMEnv) (web : SearchEnv) (q : String)
    (st : State) : Prop :=
  Relation.ReflTransGen (PipeStep cfg env web q) (State.create q) st

/-! ## Persistence adapter (C6)

State.save_to_file / State.load_from_file (state.py, not under src/) are
modelled from the spec: the session serializes to one JSON document with the
schema of spec section 6, with the field names src/examples/streamlit_app.py
reads back from the saved file (`query`, `paragraphs`, `status`, and per
section `title`, `content`, `research` with `search_history`,
`reflection_iteration`, `latest_summary`); load rejects a malformed document
with a CorruptState error instead of building a partial session. -/

/-- A JSON value. -/
inductive JVal where
  | jnull
  | jstr (s : String)
  | jnum (x : Rat)
  | jbool (b : Bool)
  | jarr (xs : List JVal)
  | jobj (fields : List (String × JVal))

/-- The error raised when loading a malformed persisted state. -/
structure CorruptState where
  msg : String
  deriving DecidableEq, Repr

/-- Look a field up in a JSON object, failing when it is missing. -/
def jfield : List (String × JVal) → String → Except CorruptState JVal
  | [], k => .error ⟨"missing field " ++ k⟩
  | (k2, v) :: rest, k => if k2 = k then .ok v else jfield rest k

/-- Expect a JSON string. -/
def JVal.asStr : JVal → Except CorruptState String
  | .jstr s => .ok s
  | _ => .error ⟨"expected a string"⟩

/-- Expect a JSON boolean. -/
def JVal.asBool : JVal → Except CorruptState Bool
  | .jbool b => .ok b
  | _ => .error ⟨"expected a boolean"⟩

/-- Expect a JSON array. -/
def JVal.asArr : JVal → Except CorruptState (List JVal)
  | .jarr xs => .ok xs
  | _ => .error ⟨"expected an array"⟩

/-- Expect a JSON number holding a natural number. -/
def JVal.asNat : JVal → Except CorruptState Nat
  | .jnum x =>
      if ((x.num.toNat : Rat)) = x then .ok x.num.toNat
      else .error ⟨"expected a natural number"⟩
  | _ => .error ⟨"expected a number"⟩

/-- Expect a JSON number or null. -/
def JVal.asOptRat : JVal → Except CorruptState (Option Rat)
  | .jnull => .ok none
  | .jnum x => .ok (some x)
  | _ => .error ⟨"expected a number or null"⟩

/-- Decode every element of a JSON array. -/
def decodeList {α : Type} (d : JVal → Except CorruptState α) :
    List JVal → Except CorruptState (List α)
  | [] => .ok []
  | v :: vs => do
    let a ← d v
    let rest ← decodeList d vs
    .ok (a :: rest)

/-- Modelled from the spec: serialization of one search result. -/
def SearchResult.to_json (r : SearchResult) : JVal :=
  .jobj [("url", .jstr r.url), ("title", .jstr r.title),
         ("content", .jstr r.content),
         ("score", match r.score with | none => .jnull | some x => .jnum x)]

/-- Modelled from the spec: deserialization of one search result. -/
def SearchResult.from_json (v : JVal) : Except CorruptState SearchResult :=
  match v with
  | .jobj fs => do
    let u ← (← jfield fs "url").asStr
    let t ← (← jfield fs "title").asStr
    let c ← (← jfield fs "content").asStr
    let sc ← (← jfield fs "score").asOptRat
    .ok ⟨u, t, c, sc⟩
  | _ => .error ⟨"expected a result object"⟩

/-- Modelled from the spec: serialization of one search event. -/
def SearchEvent.to_json (ev : SearchEvent) : JVal :=
  .jobj [("query", .jstr ev.query),
         ("results", .jarr (ev.results.map SearchResult.to_json))]

/-- Modelled from the spec: deserialization of one search event; an empty
results array is valid and loads back as the empty list. -/
def SearchEvent.from_json (v : JVal) : Except CorruptState SearchEvent :=
  match v with
  | .jobj fs => do
    let q ← (← jfield fs "query").asStr
    let arr ← (← jfield fs "results").asArr
    let rs ← decodeList SearchResult.from_json arr
    .ok ⟨q, rs⟩
  | _ => .error ⟨"expected an event object"⟩

/-- Modelled from the spec: serialization of a section's research record. -/
def Research.to_json (r : Research) : JVal :=
  .jobj [("search_history", .jarr (r.search_history.map SearchEvent.to_json)),
         ("reflection_iteration", .jnum (r.reflection_iteration : Rat)),
         ("latest_summary", .jstr r.latest_summary),
         ("completed", .jbool r.completed)]

/-- Modelled from the spec: deserialization of a research record. -/
def Research.from_json (v : JVal) : Except CorruptState Research :=
  match v with
  | .jobj fs => do
    let arr ← (← jfield fs "search_history").asArr
    let hist ← decodeList SearchEvent.from_json arr
    let it ← (← jfield fs "reflection_iteration").asNat
    let summ ← (← jfield fs "latest_summary").asStr
    let comp ← (← jfield fs "completed").asBool
    .ok ⟨hist, it, summ, comp⟩
  | _ => .error ⟨"expected a research object"⟩

/-- Modelled from the spec: serialization of one section. -/
def Paragraph.to_json (p : Paragraph) : JVal :=
  .jobj [("title", .jstr p.title), ("content", .jstr p.content),
         ("research", p.research.to_json)]

/-- Modelled from the spec: deserialization of one section. -/
def Paragraph.from_json (v : JVal) : Except CorruptState Paragraph :=
  match v with
  | .jobj fs => do
    let t ← (← jfield fs "title").asStr
    let c ← (← jfield fs "content").asStr
    let r ← Research.from_json (← jfield fs "research")
    .ok ⟨t, c, r⟩
  | _ => .error ⟨"expected a section object"⟩

/-- The stable on-disk name of each status value. -/
def Status.toName : Status → String
  | .created => "created"
  | .inProgress => "in_progress"
  | .completed => "completed"

/-- Parse a status name, rejecting unknown values. -/
def Status.fromName (s : String) : Except CorruptState Status :=
  if s = "created" then .ok .created
  else if s = "in_progress" then .ok .inProgress
  else if s = "completed" then .ok .completed
  else .error ⟨"unknown status"⟩

/-- Modelled from the spec: State.save_to_file serializes the whole session
to one JSON document. -/
def State.to_json (st : State) : JVal :=
  .jobj [("query", .jstr st.query),
         ("report_title", .jstr st.report_title),
         ("paragraphs", .jarr (st.paragraphs.map Paragraph.to_json)),
         ("status", .jstr st.status.toName),
         ("final_report", .jstr st.final_report)]

/-- Modelled from the spec: State.load_from_file reconstructs the session,
rejecting malformed or missing fields with CorruptState. -/
def State.from_json (v : JVal) : Except CorruptState State :=
  match v with
  | .jobj fs => do
    let q ← (← jfield fs "query").asStr
    let rt ← (← jfield fs "report_title").asStr
    let arr ← (← jfield fs "paragraphs").asArr
    let ps ← decodeList Paragraph.from_json arr
    let stat ← Status.fromName (← (← jfield fs "status").asStr)
    let fr ← (← jfield fs "final_report").asStr
    .ok ⟨q, rt, ps, stat, fr⟩
  | _ => .error ⟨"expected a session object"⟩

/-! ## Progress query (C9) -/

/-- The progress record the agent exposes, with the keys read by
src/examples (total_paragraphs, completed_paragraphs, progress_percentage,
is_completed). -/
structure ProgressSummary where
  total_paragraphs : Nat
  completed_paragraphs : Nat
  progress_percentage : Rat
  is_completed : Bool
  deriving DecidableEq, Repr

/-- Modelled from the spec: State.get_progress_summary (state.py, not under
src/) computes the progress record from the current session snapshot. -/
def State.get_progress_summary (st : State) : ProgressSummary :=
  let total := st.paragraphs.length
  let comp := (st.paragraphs.filter fun p => p.research.completed).length
  { total_paragraphs := total
    completed_paragraphs := comp
    progress_percentage :=
      if total = 0 then 0 else (comp : Rat) * 100 / (total : Rat)
    is_completed := decide (st.status = .completed) }

/-- DeepSearchAgent.get_progress_summary, agent.py lines 313-315: it only
reads self.state; the returned pair records the result together with the
session it leaves behind, which is the unchanged input session. -/
def agent_get_progress_summary (st : State) : ProgressSummary × State :=
  (st.get_progress_summary, st)

/-! ## Theorems for C7, C8, C10 -/

/-- C7 counterexample: a provider response with an empty choices list is an
empty response, yet DeepSeekLLM.invoke returns normally (the empty string)
instead of failing with an LLMFailure, so the claim as stated is false. -/
theorem c7_invoke_empty_choices_returns_normally :
    DeepSeekLLM.invoke (ProviderOutcome.response []) = Except.ok "" := rfl

/-- C7 (amended): invoke fails with an LLMFailure on a raised provider error
or timeout and on a first choice whose message content is missing or empty,
and it succeeds on non-empty content; but when the response has no choices,
or the first choice has no message object, it returns the empty string
normally instead of failing. -/
theorem c7_invoke_failure_behavior :
    (∀ m, DeepSeekLLM.invoke (ProviderOutcome.exceptionRaised m) =
      Except.error ⟨m⟩) ∧
    (∀ cs, DeepSeekLLM.invoke
      (ProviderOutcome.response ({ message := some { content := none } } :: cs)) =
      Except.error ⟨"invalid response"⟩) ∧
    (∀ cs, DeepSeekLLM.invoke
      (ProviderOutcome.response ({ message := some { content := some "" } } :: cs)) =
      Except.error ⟨"empty response"⟩) ∧
    (∀ cs s, s ≠ "" → DeepSeekLLM.invoke
      (ProviderOutcome.response ({ message := some { content := some s } } :: cs)) =
      Except.ok s) ∧
    (DeepSeekLLM.invoke (ProviderOutcome.response []) = Except.ok "") ∧
    (∀ cs, DeepSeekLLM.invoke
      (ProviderOutcome.response ({ message := none } :: cs)) = Except.ok "") := by
  refine ⟨fun m => rfl, fun cs => rfl, fun cs => rfl, fun cs s hs => ?_, rfl,
    fun cs => rfl⟩
  simp [DeepSeekLLM.invoke, validate_response, hs]

/-- Witness for C7 (amended) at concrete inputs. -/
theorem c7_invoke_failure_behavior_witness :
    DeepSeekLLM.invoke
      (ProviderOutcome.response [{ message := some { content := some "hello" } }]) =
      Except.ok "hello" :=
  c7_invoke_failure_behavior.2.2.2.1 [] "hello" (by decide)

/-- C8 counterexample: on the query "a b" the code produces the fragment
"a_b" (the space is replaced by an underscore), while removing disallowed
characters and truncating — the derivation the claim states — keeps the
space; indeed the code output contains an underscore that does not occur in
the query at all, which no removal-plus-truncation derivation can produce. -/
theorem c8_sanitize_replaces_spaces :
    querySafe "a b" = "a_b" ∧ querySafeClaim 30 "a b" = "a b" ∧
      '_' ∈ (querySafe "a b").data ∧ '_' ∉ ("a b").data := by
  refine ⟨rfl, rfl, by decide, by decide⟩

/-- C8 (amended): the filename fragment is derived from the query by removing
every character that is not alphanumeric and not a space, hyphen or
underscore, then stripping trailing spaces, replacing each remaining space by
an underscore, and truncating to a 30-character prefix; so the fragment is at
most 30 characters, every character of it is alphanumeric, a hyphen or an
underscore, and it is substituted into the filename between the fixed prefix
and the timestamp. -/
theorem c8_sanitized_filename :
    ∀ q ts : String,
      (querySafe q).length ≤ 30 ∧
      ((querySafe q).data.all fun c => c.isAlphanum || c = '-' || c = '_') = true ∧
      querySafe q =
        String.mk (((rstripSpaces (q.data.filter allowedChar)).map
          fun c => if c = ' ' then '_' else c).take 30) ∧
      reportFilename q ts =
        "deep_search_report_" ++ querySafe q ++ "_" ++ ts ++ ".md" := by
  intro q ts
  refine ⟨?_, ?_, rfl, rfl⟩
  · show (((rstripSpaces (q.data.filter allowedChar)).map
      fun c => if c = ' ' then '_' else c).take 30).length ≤ 30
    exact List.length_take_le 30 _
  · rw [List.all_eq_true]
    intro c hc
    have hc' := List.mem_of_mem_take hc
    obtain ⟨c₀, hc₀, rfl⟩ := List.mem_map.mp hc'
    have hmem : c₀ ∈ q.data.filter allowedChar := by
      have hsub : List.Sublist (rstripSpaces (q.data.filter allowedChar))
          (q.data.filter allowedChar) := by
        have h1 := List.dropWhile_sublist
          (l := (q.data.filter allowedChar).reverse) (p := fun c => c = ' ')
        simpa [rstripSpaces] using h1.reverse
      exact hsub.subset hc₀
    have hall : allowedChar c₀ = true := (List.mem_filter.mp hmem).2
    by_cases hsp : c₀ = ' '
    · simp [hsp]
    · rw [if_neg hsp]
      simp only [allowedChar, Bool.or_eq_true, decide_eq_true_eq] at hall
      rcases hall with ((h | h) | h) | h
      · simp [h]
      · exact absurd h hsp
      · simp [h]
      · simp [h]

/-- C10: load_config returns the configuration built from the environment
exactly when the key required by the selected provider and the Tavily key are
truthy, and raises a ValueError otherwise — never a partially valid
configuration. -/
theorem c10_load_config_requires_keys :
    ∀ e : EnvVars,
      load_config e =
        if requiredKeysOk e then Except.ok (Config.from_env e)
        else Except.error (ConfigError.valueError "config validation failed") := by
  intro e
  have hbool : ∀ a b c d f : Bool,
      (if a && !c then false
        else if b && !d then false else if !f then false else true) =
      ((!a || c) && (!b || d) && f) := by decide
  have hval : (Config.from_env e).validate = requiredKeysOk e := by
    simp only [Config.validate, Config.from_env, requiredKeysOk]
    exact hbool _ _ _ _ _
  simp only [load_config, hval]

/-! ## Helper lemmas on the section update primitive -/

theorem updResearch_length (f : Research → Research) :
    ∀ (i : Nat) (l : List Paragraph), (updResearch f i l).length = l.length := by
  intro i l
  induction l generalizing i with
  | nil => cases i <;> rfl
  | cons hd tl ih =>
    cases i with
    | zero => rfl
    | succ n => simp [updResearch, ih]

theorem updResearch_getElem_self (f : Research → Research) :
    ∀ (i : Nat) (l : List Paragraph) (p : Paragraph), l[i]? = some p →
      (updResearch f i l)[i]? = some { p with research := f p.research } := by
  intro i l
  induction l generalizing i with
  | nil => intro p h; simp at h
  | cons hd tl ih =>
    intro p h
    cases i with
    | zero =>
      simp only [List.getElem?_cons_zero, Option.some.injEq] at h
      subst h
      simp [updResearch]
    | succ n =>
      rw [List.getElem?_cons_succ] at h
      show (hd :: updResearch f n tl)[n + 1]? = _
      rw [List.getElem?_cons_succ]
      exact ih n p h

theorem updResearch_getElem_ne (f : Research → Research) :
    ∀ (i : Nat) (l : List Paragraph) (j : Nat), j ≠ i →
      (updResearch f i l)[j]? = l[j]? := by
  intro i l
  induction l generalizing i with
  | nil => intro j _; cases i <;> rfl
  | cons hd tl ih =>
    intro j hj
    cases i with
    | zero =>
      cases j with
      | zero => exact absurd rfl hj
      | succ m =>
        show ({ hd with research := f hd.research } :: tl)[m + 1]? = _
        rw [List.getElem?_cons_succ, List.getElem?_cons_succ]
    | succ n =>
      cases j with
      | zero => simp [updResearch]
      | succ m =>
        show (hd :: updResearch f n tl)[m + 1]? = _
        rw [List.getElem?_cons_succ, List.getElem?_cons_succ]
        exact ih n m fun hh => hj (by rw [hh])

theorem updateResearch_getElem_self (st : State) (i : Nat)
    (f : Research → Research) (p : Paragraph) (h : st.paragraphs[i]? = some p) :
    (st.updateResearch i f).paragraphs[i]? =
      some { p with research := f p.research } :=
  updResearch_getElem_self f i st.paragraphs p h

theorem agreesOff_refl (st : State) (i : Nat) : AgreesOff st st i :=
  ⟨rfl, rfl, rfl, rfl, rfl, fun _ _ => rfl⟩

theorem agreesOff_trans {st st1 st2 : State} {i : Nat}
    (h1 : AgreesOff st st1 i) (h2 : AgreesOff st1 st2 i) : AgreesOff st st2 i :=
  ⟨h2.1.trans h1.1, h2.2.1.trans h1.2.1, h2.2.2.1.trans h1.2.2.1,
    h2.2.2.2.1.trans h1.2.2.2.1, h2.2.2.2.2.1.trans h1.2.2.2.2.1,
    fun j hj => (h2.2.2.2.2.2 j hj).trans (h1.2.2.2.2.2 j hj)⟩

theorem updateResearch_agrees (st : State) (i : Nat) (f : Research → Research) :
    AgreesOff st (st.updateResearch i f) i :=
  ⟨rfl, rfl, rfl, rfl, updResearch_length f i st.paragraphs,
    fun j hj => updResearch_getElem_ne f i st.paragraphs j hj⟩

/-! ## Characterization of the pipeline phases -/

theorem initialSearchAndSummary_none (cfg : Config) (env : LLMEnv)
    (web : SearchEnv) (st : State) (i : Nat) (h : st.paragraphs[i]? = none) :
    initialSearchAndSummary cfg env web st i = .ok st := by
  simp [initialSearchAndSummary, h]

theorem initialSearchAndSummary_ok (cfg : Config) (env : LLMEnv)
    (web : SearchEnv) (st : State) (i : Nat) (st' : State) (p : Paragraph)
    (hp : st.paragraphs[i]? = some p)
    (h : initialSearchAndSummary cfg env web st i = .ok st') :
    ∃ sq s,
      env.firstSummary p.title p.content sq
        (format_search_results_for_prompt (tavily_search (web.fetch sq))
          cfg.max_content_length) = .ok s ∧
      st'.paragraphs[i]? = some
        { p with research :=
          { search_history :=
              p.research.search_history ++ [⟨sq, tavily_search (web.fetch sq)⟩]
            reflection_iteration := p.research.reflection_iteration
            latest_summary := s
            completed := p.research.completed } } ∧
      AgreesOff st st' i := by
  cases hfs : env.firstSearch p.title p.content with
  | error e => simp [initialSearchAndSummary, hp, hfs] at h
  | ok o =>
    obtain ⟨sq, r⟩ := o
    cases hsum : env.firstSummary p.title p.content sq
        (format_search_results_for_prompt (tavily_search (web.fetch sq))
          cfg.max_content_length) with
    | error e => simp [initialSearchAndSummary, hp, hfs, hsum] at h
    | ok s =>
      simp only [initialSearchAndSummary, hp, hfs, hsum, PResult.ok.injEq] at h
      subst h
      refine ⟨sq, s, hsum, ?_, ?_⟩
      · have h1 := updateResearch_getElem_self st i
          (fun r => r.add_search_results sq (tavily_search (web.fetch sq))) p hp
        have h2 := updateResearch_getElem_self _ i
          (fun r => { r with latest_summary := s }) _ h1
        exact h2
      · exact agreesOff_trans (updateResearch_agrees st i _)
          (updateResearch_agrees _ i _)

theorem reflectionRound_none (cfg : Config) (env : LLMEnv) (web : SearchEnv)
    (st : State) (i : Nat) (h : st.paragraphs[i]? = none) :
    reflectionRound cfg env web st i = .ok st := by
  simp [reflectionRound, h]

theorem reflectionRound_ok (cfg : Config) (env : LLMEnv) (web : SearchEnv)
    (st : State) (i : Nat) (st' : State) (p : Paragraph)
    (hp : st.paragraphs[i]? = some p)
    (h : reflectionRound cfg env web st i = .ok st') :
    ∃ sq s,
      env.reflectionSummary p.title p.content sq
        (format_search_results_for_prompt (tavily_search (web.fetch sq))
          cfg.max_content_length) p.research.latest_summary = .ok s ∧
      st'.paragraphs[i]? = some
        { p with research :=
          { search_history :=
              p.research.search_history ++ [⟨sq, tavily_search (web.fetch sq)⟩]
            reflection_iteration := p.research.reflection_iteration + 1
            latest_summary := s
            completed := p.research.completed } } ∧
      AgreesOff st st' i := by
  cases hfs : env.reflection p.title p.content p.research.latest_summary with
  | error e => simp [reflectionRound, hp, hfs] at h
  | ok o =>
    obtain ⟨sq, r⟩ := o
    cases hsum : env.reflectionSummary p.title p.content sq
        (format_search_results_for_prompt (tavily_search (web.fetch sq))
          cfg.max_content_length) p.research.latest_summary with
    | error e => simp [reflectionRound, hp, hfs, hsum] at h
    | ok s =>
      simp only [reflectionRound, hp, hfs, hsum, PResult.ok.injEq] at h
      subst h
      refine ⟨sq, s, hsum, ?_, ?_⟩
      · have h1 := updateResearch_getElem_self st i
          (fun r => r.add_search_results sq (tavily_search (web.fetch sq))) p hp
        have h2 := updateResearch_getElem_self _ i
          (fun r =>
            { r with
              latest_summary := s
              reflection_iteration := r.reflection_iteration + 1 }) _ h1
        exact h2
      · exact agreesOff_trans (updateResearch_agrees st i _)
          (updateResearch_agrees _ i _)

theorem reflectionLoop_ok (cfg : Config) (env : LLMEnv) (web : SearchEnv) :
    ∀ (n : Nat) (st : State) (i : Nat) (st' : State) (p : Paragraph),
      st.paragraphs[i]? = some p →
      reflectionLoop cfg env web n st i = .ok st' →
      ∃ p', st'.paragraphs[i]? = some p' ∧
        p'.title = p.title ∧ p'.content = p.content ∧
        p'.research.search_history.length =
          p.research.search_history.length + n ∧
        (∀ ev ∈ p'.research.search_history,
          ev ∈ p.research.search_history ∨
            ev.results = tavily_search (web.fetch ev.query)) ∧
        p'.research.reflection_iteration =
          p.research.reflection_iteration + n ∧
        (p'.research.latest_summary = p.research.latest_summary ∨
          ∃ a b c d e,
            env.reflectionSummary a b c d e = .ok p'.research.latest_summary) ∧
        p'.research.completed = p.research.completed ∧
        AgreesOff st st' i := by
  intro n
  induction n with
  | zero =>
    intro st i st' p hp h
    simp only [reflectionLoop, PResult.ok.injEq] at h
    subst h
    exact ⟨p, hp, rfl, rfl, rfl, fun ev hev => Or.inl hev, rfl, Or.inl rfl,
      rfl, agreesOff_refl st i⟩
  | succ n ih =>
    intro st i st' p hp h
    cases hr : reflectionRound cfg env web st i with
    | err e st1 => simp [reflectionLoop, hr] at h
    | ok st1 =>
      simp only [reflectionLoop, hr] at h
      obtain ⟨sq, s, hsum, hp1, hag1⟩ :=
        reflectionRound_ok cfg env web st i st1 p hp hr
      obtain ⟨p', hp', hti, hco, hlen, hev, hit, hsumm, hcomp, hag2⟩ :=
        ih st1 i st' _ hp1 h
      refine ⟨p', hp', hti, hco, ?_, ?_, ?_, ?_, hcomp, agreesOff_trans hag1 hag2⟩
      · simp only [hlen, List.length_append, List.length_cons, List.length_nil]
        omega
      · intro ev hevmem
        rcases hev ev hevmem with hold | hnew
        · rcases List.mem_append.mp hold with hl | hr2
          · exact Or.inl hl
          · simp only [List.mem_singleton] at hr2
            subst hr2
            exact Or.inr rfl
        · exact Or.inr hnew
      · simp only [hit]; omega
      · rcases hsumm with heq | hfound
        · have hs : p'.research.latest_summary = s := by simpa using heq
          exact Or.inr ⟨p.title, p.content, sq,
            format_search_results_for_prompt (tavily_search (web.fetch sq))
              cfg.max_content_length, p.research.latest_summary,
            by rw [hs]; exact hsum⟩
        · exact Or.inr hfound

theorem markParagraphCompleted_getElem (st : State) (i : Nat) (p : Paragraph)
    (hp : st.paragraphs[i]? = some p) :
    (markParagraphCompleted st i).paragraphs[i]? =
      some { p with research := { p.research with completed := true } } :=
  updateResearch_getElem_self st i Research.mark_completed p hp

theorem updResearch_out_of_range (f : Research → Research) :
    ∀ (i : Nat) (l : List Paragraph), l[i]? = none → updResearch f i l = l := by
  intro i l
  induction l generalizing i with
  | nil => intro _; cases i <;> rfl
  | cons hd tl ih =>
    intro h
    cases i with
    | zero => simp at h
    | succ n =>
      rw [List.getElem?_cons_succ] at h
      simp [updResearch, ih n h]

theorem processParagraph_none (cfg : Config) (env : LLMEnv) (web : SearchEnv)
    (st : State) (i : Nat) (h : st.paragraphs[i]? = none) :
    processParagraph cfg env web st i = .ok st := by
  have hinit := initialSearchAndSummary_none cfg env web st i h
  have hloop : ∀ n, reflectionLoop cfg env web n st i = .ok st := by
    intro n
    induction n with
    | zero => rfl
    | succ n ihn =>
      simp [reflectionLoop, reflectionRound_none cfg env web st i h, ihn]
  have hmark : markParagraphCompleted st i = st := by
    simp [markParagraphCompleted, State.updateResearch,
      updResearch_out_of_range Research.mark_completed i st.paragraphs h]
  simp [processParagraph, hinit, hloop, hmark]

theorem processParagraph_ok (cfg : Config) (env : LLMEnv) (web : SearchEnv)
    (st : State) (i : Nat) (st' : State) (p : Paragraph)
    (hp : st.paragraphs[i]? = some p)
    (h : processParagraph cfg env web st i = .ok st') :
    ∃ p', st'.paragraphs[i]? = some p' ∧
      p'.title = p.title ∧ p'.content = p.content ∧
      p'.research.completed = true ∧
      p'.research.search_history.length =
        p.research.search_history.length + (1 + cfg.max_reflections) ∧
      (∀ ev ∈ p'.research.search_history,
        ev ∈ p.research.search_history ∨
          ev.results = tavily_search (web.fetch ev.query)) ∧
      p'.research.reflection_iteration =
        p.research.reflection_iteration + cfg.max_reflections ∧
      ((∃ a b c d, env.firstSummary a b c d = .ok p'.research.latest_summary) ∨
        (∃ a b c d e,
          env.reflectionSummary a b c d e = .ok p'.research.latest_summary)) ∧
      AgreesOff st st' i := by
  cases hinit : initialSearchAndSummary cfg env web st i with
  | err e st1 => simp [processParagraph, hinit] at h
  | ok st1 =>
    cases hloop : reflectionLoop cfg env web cfg.max_reflections st1 i with
    | err e st2 => simp [processParagraph, hinit, hloop] at h
    | ok st2 =>
      simp only [processParagraph, hinit, hloop, PResult.ok.injEq] at h
      subst h
      obtain ⟨sq, s, hsum1, hp1, hag1⟩ :=
        initialSearchAndSummary_ok cfg env web st i st1 p hp hinit
      obtain ⟨p2, hp2, hti, hco, hlen, hev, hit, hsumm, hcomp, hag2⟩ :=
        reflectionLoop_ok cfg env web cfg.max_reflections st1 i st2 _ hp1 hloop
      have hpm := markParagraphCompleted_getElem st2 i p2 hp2
      refine ⟨_, hpm, ?_, ?_, rfl, ?_, ?_, ?_, ?_, ?_⟩
      · simpa using hti
      · simpa using hco
      · show p2.research.search_history.length = _
        simp only [hlen]
        simp only [List.length_append, List.length_cons, List.length_nil]
        omega
      · intro ev hevmem
        have hevmem2 : ev ∈ p2.research.search_history := hevmem
        rcases hev ev hevmem2 with hold | hnew
        · simp only [List.mem_append, List.mem_singleton] at hold
          rcases hold with hl | hr2
          · exact Or.inl hl
          · subst hr2
            exact Or.inr rfl
        · exact Or.inr hnew
      · show p2.research.reflection_iteration = _
        simp only [hit]
      · rcases hsumm with heq | hfound
        · have hs : p2.research.latest_summary = s := by simpa using heq
          refine Or.inl ⟨p.title, p.content, sq,
            format_search_results_for_prompt (tavily_search (web.fetch sq))
              cfg.max_content_length, ?_⟩
          show env.firstSummary p.title p.content sq
            (format_search_results_for_prompt (tavily_search (web.fetch sq))
              cfg.max_content_length) = Except.ok p2.research.latest_summary
          rw [hs]
          exact hsum1
        · obtain ⟨a, b, c, d, e, hfe⟩ := hfound
          exact Or.inr ⟨a, b, c, d, e, hfe⟩
      · exact agreesOff_trans hag1 (agreesOff_trans hag2
          (updateResearch_agrees st2 i Research.mark_completed))

theorem processList_ok (cfg : Config) (env : LLMEnv) (web : SearchEnv) :
    ∀ (k i : Nat) (st st' : State),
      processList cfg env web i k st = .ok st' →
      st'.query = st.query ∧ st'.report_title = st.report_title ∧
      st'.status = st.status ∧ st'.final_report = st.final_report ∧
      st'.paragraphs.length = st.paragraphs.length ∧
      (∀ j, (j < i ∨ i + k ≤ j) → st'.paragraphs[j]? = st.paragraphs[j]?) ∧
      (∀ j p, i ≤ j → j < i + k → st.paragraphs[j]? = some p →
        ∃ p', st'.paragraphs[j]? = some p' ∧
          p'.title = p.title ∧ p'.content = p.content ∧
          p'.research.completed = true ∧
          p'.research.search_history.length =
            p.research.search_history.length + (1 + cfg.max_reflections) ∧
          (∀ ev ∈ p'.research.search_history,
            ev ∈ p.research.search_history ∨
              ev.results = tavily_search (web.fetch ev.query)) ∧
          p'.research.reflection_iteration =
            p.research.reflection_iteration + cfg.max_reflections ∧
          ((∃ a b c d,
              env.firstSummary a b c d = .ok p'.research.latest_summary) ∨
            (∃ a b c d e,
              env.reflectionSummary a b c d e = .ok p'.research.latest_summary))) := by
  intro k
  induction k with
  | zero =>
    intro i st st' h
    simp only [processList, PResult.ok.injEq] at h
    subst h
    exact ⟨rfl, rfl, rfl, rfl, rfl, fun j _ => rfl,
      fun j p h1 h2 _ => absurd h2 (by omega)⟩
  | succ k ih =>
    intro i st st' h
    cases hpp : processParagraph cfg env web st i with
    | err e st1 => simp [processList, hpp] at h
    | ok st1 =>
      simp only [processList, hpp] at h
      obtain ⟨hq, hrt, hstat, hfr, hplen, hframe, hdone⟩ := ih (i + 1) st1 st' h
      cases hpi : st.paragraphs[i]? with
      | none =>
        have hid : st1 = st := by
          have h2 := (processParagraph_none cfg env web st i hpi).symm.trans hpp
          injection h2 with h3
          exact h3.symm
        subst hid
        refine ⟨hq, hrt, hstat, hfr, hplen, ?_, ?_⟩
        · intro j hj
          exact hframe j (by omega)
        · intro j p hij hjk hpj
          rcases Nat.eq_or_lt_of_le hij with heq | hlt
          · exact absurd (heq ▸ hpj) (by rw [hpi]; simp)
          · exact hdone j p hlt (by omega) hpj
      | some p =>
        obtain ⟨p1, hp1, hti, hco, hcompl, hlen, hev, hit, hsumm, hag⟩ :=
          processParagraph_ok cfg env web st i st1 p hpi hpp
        refine ⟨hq.trans hag.1, hrt.trans hag.2.1, hstat.trans hag.2.2.1,
          hfr.trans hag.2.2.2.1, hplen.trans hag.2.2.2.2.1, ?_, ?_⟩
        · intro j hj
          have hne : j ≠ i := by omega
          exact (hframe j (by omega)).trans (hag.2.2.2.2.2 j hne)
        · intro j pj hij hjk hpj
          rcases Nat.eq_or_lt_of_le hij with heq | hlt
          · have hji : j = i := heq.symm
            subst hji
            have hpj' : pj = p := by
              rw [hpi] at hpj
              exact (Option.some.injEq _ _).mp hpj.symm
            subst hpj'
            have hstill : st'.paragraphs[j]? = st1.paragraphs[j]? :=
              hframe j (by omega)
            exact ⟨p1, hstill.trans hp1, hti, hco, hcompl, hlen, hev, hit, hsumm⟩
          · have hpj1 : st1.paragraphs[j]? = some pj := by
              rw [hag.2.2.2.2.2 j (by omega)]
              exact hpj
            exact hdone j pj hlt (by omega) hpj1

theorem initialSearchAndSummary_total (cfg : Config) (env : LLMEnv)
    (web : SearchEnv) (st : State) (i : Nat) (htot : env.SectionTotal) :
    ∃ st', initialSearchAndSummary cfg env web st i = .ok st' := by
  cases hpi : st.paragraphs[i]? with
  | none => exact ⟨st, initialSearchAndSummary_none cfg env web st i hpi⟩
  | some p =>
    obtain ⟨⟨sq, r⟩, hfs⟩ := htot.1 p.title p.content
    obtain ⟨s, hsum⟩ := htot.2.2.1 p.title p.content sq
      (format_search_results_for_prompt (tavily_search (web.fetch sq))
        cfg.max_content_length)
    exact ⟨(st.updateResearch i fun r =>
        r.add_search_results sq (tavily_search (web.fetch sq))).updateResearch i
          (fun r => { r with latest_summary := s }),
      by simp [initialSearchAndSummary, hpi, hfs, hsum]⟩

theorem reflectionRound_total (cfg : Config) (env : LLMEnv) (web : SearchEnv)
    (st : State) (i : Nat) (htot : env.SectionTotal) :
    ∃ st', reflectionRound cfg env web st i = .ok st' := by
  cases hpi : st.paragraphs[i]? with
  | none => exact ⟨st, reflectionRound_none cfg env web st i hpi⟩
  | some p =>
    obtain ⟨⟨sq, r⟩, hfs⟩ := htot.2.1 p.title p.content p.research.latest_summary
    obtain ⟨s, hsum⟩ := htot.2.2.2 p.title p.content sq
      (format_search_results_for_prompt (tavily_search (web.fetch sq))
        cfg.max_content_length) p.research.latest_summary
    exact ⟨(st.updateResearch i fun r =>
        r.add_search_results sq (tavily_search (web.fetch sq))).updateResearch i
          (fun r =>
            { r with
              latest_summary := s
              reflection_iteration := r.reflection_iteration + 1 }),
      by simp [reflectionRound, hpi, hfs, hsum]⟩

theorem reflectionLoop_total (cfg : Config) (env : LLMEnv) (web : SearchEnv)
    (htot : env.SectionTotal) :
    ∀ (n : Nat) (st : State) (i : Nat),
      ∃ st', reflectionLoop cfg env web n st i = .ok st' := by
  intro n
  induction n with
  | zero => intro st i; exact ⟨st, rfl⟩
  | succ n ih =>
    intro st i
    obtain ⟨st1, h1⟩ := reflectionRound_total cfg env web st i htot
    obtain ⟨st', h2⟩ := ih st1 i
    exact ⟨st', by simp [reflectionLoop, h1, h2]⟩

theorem processParagraph_total (cfg : Config) (env : LLMEnv) (web : SearchEnv)
    (st : State) (i : Nat) (htot : env.SectionTotal) :
    ∃ st', processParagraph cfg env web st i = .ok st' := by
  obtain ⟨st1, h1⟩ := initialSearchAndSummary_total cfg env web st i htot
  obtain ⟨st2, h2⟩ := reflectionLoop_total cfg env web htot cfg.max_reflections st1 i
  exact ⟨markParagraphCompleted st2 i, by simp [processParagraph, h1, h2]⟩

theorem initialSearchAndSummary_err (cfg : Config) (env : LLMEnv)
    (web : SearchEnv) (st : State) (i : Nat) (e : LLMFailure) (st' : State)
    (p : Paragraph) (hp : st.paragraphs[i]? = some p)
    (h : initialSearchAndSummary cfg env web st i = .err e st') :
    st' = st ∨ ∃ sq, st' = st.updateResearch i fun r =>
      r.add_search_results sq (tavily_search (web.fetch sq)) := by
  cases hfs : env.firstSearch p.title p.content with
  | error e2 =>
    left
    simp only [initialSearchAndSummary, hp, hfs, PResult.err.injEq] at h
    exact h.2.symm
  | ok o =>
    obtain ⟨sq, r⟩ := o
    cases hsum : env.firstSummary p.title p.content sq
        (format_search_results_for_prompt (tavily_search (web.fetch sq))
          cfg.max_content_length) with
    | error e2 =>
      right
      refine ⟨sq, ?_⟩
      simp only [initialSearchAndSummary, hp, hfs, hsum, PResult.err.injEq] at h
      exact h.2.symm
    | ok s => simp [initialSearchAndSummary, hp, hfs, hsum] at h

theorem processList_add (cfg : Config) (env : LLMEnv) (web : SearchEnv) :
    ∀ (a b i : Nat) (st : State),
      processList cfg env web i (a + b) st =
        match processList cfg env web i a st with
        | .err e st1 => .err e st1
        | .ok st1 => processList cfg env web (i + a) b st1 := by
  intro a
  induction a with
  | zero =>
    intro b i st
    simp [processList]
  | succ a ih =>
    intro b i st
    have hsa : a + 1 + b = a + b + 1 := by omega
    rw [hsa]
    simp only [processList]
    cases hpp : processParagraph cfg env web st i with
    | err e st1 => simp
    | ok st1 =>
      simp only []
      rw [ih b (i + 1) st1]
      have hI : i + (a + 1) = i + 1 + a := by omega
      rw [hI]

/-- C1: for every section processed by the pipeline, the reflection loop runs
exactly max_reflections rounds with no early stop: on a successful run over
sections that start with fresh research, every section ends completed with
reflection_iteration = max_reflections, search history of length
1 + max_reflections (one initial search plus one per round), and a non-empty
latest summary (the LLM contract rules out empty summaries). -/
theorem c1_reflection_rounds_exact (cfg : Config) (env : LLMEnv)
    (web : SearchEnv) (st st' : State)
    (hok : env.SummariesNonempty)
    (hfresh : ∀ p ∈ st.paragraphs, p.research = ({} : Research))
    (hrun : processParagraphs cfg env web st = .ok st') :
    ∀ p' ∈ st'.paragraphs,
      p'.research.completed = true ∧
      p'.research.reflection_iteration = cfg.max_reflections ∧
      p'.research.search_history.length = 1 + cfg.max_reflections ∧
      p'.research.latest_summary ≠ "" := by
  intro p' hmem
  obtain ⟨j, hj⟩ := List.mem_iff_getElem?.mp hmem
  obtain ⟨hq, hrt, hstat, hfr, hplen, hframe, hdone⟩ :=
    processList_ok cfg env web st.paragraphs.length 0 st st' hrun
  obtain ⟨hjlen, -⟩ := List.getElem?_eq_some.mp hj
  have hjlen0 : j < st.paragraphs.length := by omega
  obtain ⟨p, hp⟩ : ∃ p, st.paragraphs[j]? = some p :=
    ⟨st.paragraphs[j], List.getElem?_eq_getElem hjlen0⟩
  obtain ⟨p'', hp'', hti, hco, hcompl, hlen, hev, hit, hsumm⟩ :=
    hdone j p (by omega) (by omega) hp
  have hpp : p'' = p' := by
    rw [hj] at hp''
    exact ((Option.some.injEq _ _).mp hp'').symm
  subst hpp
  have hfr0 : p.research = ({} : Research) := hfresh p (List.getElem?_mem hp)
  have hit0 : p.research.reflection_iteration = 0 := by rw [hfr0]
  have hhl0 : p.research.search_history.length = 0 := by rw [hfr0]; rfl
  refine ⟨hcompl, by omega, by omega, ?_⟩
  rcases hsumm with ⟨a, b, c, d, hs⟩ | ⟨a, b, c, d, e, hs⟩
  · exact hok.1 a b c d _ hs
  · exact hok.2.1 a b c d e _ hs

/-- Witness for C1 at concrete inputs: the first section of a two-section
session processed with an always-succeeding LLM and a one-result web search,
one reflection round. -/
theorem c1_reflection_rounds_exact_witness :
    c1WitnessPara.research.completed = true ∧
    c1WitnessPara.research.reflection_iteration = cfgW.max_reflections ∧
    c1WitnessPara.research.search_history.length = 1 + cfgW.max_reflections ∧
    c1WitnessPara.research.latest_summary ≠ "" :=
  c1_reflection_rounds_exact cfgW envOkW webOkW stW
    ((processParagraphs cfgW envOkW webOkW stW).state)
    ⟨by
      intro a b c d s h
      simp only [envOkW] at h
      injection h with h2
      subst h2
      decide,
     by
      intro a b c d e s h
      simp only [envOkW] at h
      injection h with h2
      subst h2
      decide,
     by
      intro d s h
      simp only [envOkW] at h
      injection h with h2
      subst h2
      decide⟩
    (by decide)
    rfl
    c1WitnessPara
    (List.getElem?_mem
      (show (processParagraphs cfgW envOkW webOkW stW).state.paragraphs[0]? =
        some c1WitnessPara from rfl))

/-- C5: a timed-out or failed web search degrades to the empty result list;
one SearchEvent is still appended per search (the history grows by exactly
1 + max_reflections events); and a section whose every search times out is
still processed to completion rather than aborting, provided only that the
LLM stages themselves succeed. -/
theorem c5_search_degrades_not_aborts (cfg : Config) (env : LLMEnv)
    (web : SearchEnv) (st : State) (i : Nat) (p : Paragraph)
    (htot : env.SectionTotal)
    (hweb : ∀ q, web.fetch q = SearchOutcome.timeout)
    (hp : st.paragraphs[i]? = some p) :
    tavily_search SearchOutcome.timeout = [] ∧
    tavily_search (SearchOutcome.transportError "connection error") = [] ∧
    ∃ st', processParagraph cfg env web st i = .ok st' ∧
      ∃ p', st'.paragraphs[i]? = some p' ∧
        p'.research.completed = true ∧
        p'.research.search_history.length =
          p.research.search_history.length + (1 + cfg.max_reflections) ∧
        ∀ ev ∈ p'.research.search_history,
          ev ∈ p.research.search_history ∨ ev.results = [] := by
  refine ⟨rfl, rfl, ?_⟩
  obtain ⟨st', hok⟩ := processParagraph_total cfg env web st i htot
  obtain ⟨p', hp', -, -, hcompl, hlen, hev, -, -, -⟩ :=
    processParagraph_ok cfg env web st i st' p hp hok
  refine ⟨st', hok, p', hp', hcompl, hlen, ?_⟩
  intro ev hevmem
  rcases hev ev hevmem with hold | hnew
  · exact Or.inl hold
  · rw [hweb ev.query] at hnew
    exact Or.inr hnew

/-- Witness for C5 at concrete inputs: the first section of the demo session,
with an always-timing-out web search. -/
theorem c5_search_degrades_not_aborts_witness :
    tavily_search SearchOutcome.timeout = [] ∧
    tavily_search (SearchOutcome.transportError "connection error") = [] ∧
    ∃ st', processParagraph cfgW envOkW webTimeoutW stW 0 = .ok st' ∧
      ∃ p', st'.paragraphs[0]? = some p' ∧
        p'.research.completed = true ∧
        p'.research.search_history.length =
          (⟨"Sec A", "about A", {}⟩ : Paragraph).research.search_history.length +
            (1 + cfgW.max_reflections) ∧
        ∀ ev ∈ p'.research.search_history,
          ev ∈ (⟨"Sec A", "about A", {}⟩ : Paragraph).research.search_history ∨
            ev.results = [] :=
  c5_search_degrades_not_aborts cfgW envOkW webTimeoutW stW 0
    ⟨"Sec A", "about A", {}⟩
    ⟨fun a b => ⟨("initial query", "why"), rfl⟩,
     fun a b c => ⟨("reflection query", "why"), rfl⟩,
     fun a b c d => ⟨"first summary", rfl⟩,
     fun a b c d e => ⟨"reflection summary", rfl⟩⟩
    (fun _ => rfl)
    rfl

/-- C4: an LLM failure in the initial-summary stage of section k aborts the
run with that failure propagated unchanged to the caller of research (not
swallowed), no reflection round runs for section k (its reflection count,
completed flag and summary are untouched), and every section processed
earlier keeps exactly the state its own processing produced, completed flag
set. -/
theorem c4_llm_failure_aborts_run (cfg : Config) (env : LLMEnv)
    (web : SearchEnv) (st stmid stf : State) (k : Nat) (e : LLMFailure)
    (hk : k < st.paragraphs.length)
    (hpre : processList cfg env web 0 k st = .ok stmid)
    (hfail : initialSearchAndSummary cfg env web stmid k = .err e stf) :
    processParagraphs cfg env web st = .err e stf ∧
    (∀ q st0, generateReportStructure env q (State.create q) = .ok st0 →
      processParagraphs cfg env web st0 = .err e stf →
      research cfg env web q = .err e stf) ∧
    (∀ p, stmid.paragraphs[k]? = some p →
      ∃ p', stf.paragraphs[k]? = some p' ∧
        p'.research.reflection_iteration = p.research.reflection_iteration ∧
        p'.research.completed = p.research.completed ∧
        p'.research.latest_summary = p.research.latest_summary) ∧
    (∀ j, j < k → stf.paragraphs[j]? = stmid.paragraphs[j]?) ∧
    (∀ j p0, j < k → st.paragraphs[j]? = some p0 →
      ∃ p', stf.paragraphs[j]? = some p' ∧ p'.research.completed = true) := by
  have hpp : processParagraph cfg env web stmid k = .err e stf := by
    simp [processParagraph, hfail]
  obtain ⟨hq, hrt, hstat, hfr2, hplen, hframe, hdone⟩ :=
    processList_ok cfg env web k 0 st stmid hpre
  have hkmid : k < stmid.paragraphs.length := by omega
  obtain ⟨pk, hpk⟩ : ∃ p, stmid.paragraphs[k]? = some p :=
    ⟨stmid.paragraphs[k], List.getElem?_eq_getElem hkmid⟩
  have herr := initialSearchAndSummary_err cfg env web stmid k e stf pk hpk hfail
  have hframe2 : ∀ j, j ≠ k → stf.paragraphs[j]? = stmid.paragraphs[j]? := by
    rcases herr with heq | ⟨sq, heq⟩
    · subst heq; intro j _; rfl
    · subst heq
      intro j hj
      exact (updateResearch_agrees stmid k _).2.2.2.2.2 j hj
  have habort : processParagraphs cfg env web st = .err e stf := by
    show processList cfg env web 0 st.paragraphs.length st = .err e stf
    obtain ⟨m, hm⟩ : ∃ m, st.paragraphs.length = k + (m + 1) :=
      ⟨st.paragraphs.length - k - 1, by omega⟩
    rw [hm, processList_add cfg env web k (m + 1) 0 st]
    simp only [hpre]
    have h0k : 0 + k = k := by omega
    rw [h0k]
    simp [processList, hpp]
  refine ⟨habort, ?_, ?_, ?_, ?_⟩
  · intro q st0 h1 h2
    simp [research, h1, h2]
  · intro p hp
    rcases herr with heq | ⟨sq, heq⟩
    · subst heq
      exact ⟨p, hp, rfl, rfl, rfl⟩
    · subst heq
      exact ⟨_, updateResearch_getElem_self stmid k _ p hp, rfl, rfl, rfl⟩
  · intro j hj
    exact hframe2 j (by omega)
  · intro j p0 hj hp0
    obtain ⟨p', hp', -, -, hcompl, -⟩ := hdone j p0 (by omega) (by omega) hp0
    exact ⟨p', (hframe2 j (by omega)).trans hp', hcompl⟩

/-- Witness for C4 at concrete inputs: section "Sec A" of the demo session
processes fully, then the initial-summary stage for "Sec B" raises. -/
theorem c4_llm_failure_aborts_run_witness :
    processParagraphs cfgW envFailBW webOkW stW =
      .err ⟨"summary failed"⟩ stFailW ∧
    (∀ q st0,
      generateReportStructure envFailBW q (State.create q) = .ok st0 →
      processParagraphs cfgW envFailBW webOkW st0 =
        .err ⟨"summary failed"⟩ stFailW →
      research cfgW envFailBW webOkW q = .err ⟨"summary failed"⟩ stFailW) ∧
    (∀ p, stMidW.paragraphs[1]? = some p →
      ∃ p', stFailW.paragraphs[1]? = some p' ∧
        p'.research.reflection_iteration = p.research.reflection_iteration ∧
        p'.research.completed = p.research.completed ∧
        p'.research.latest_summary = p.research.latest_summary) ∧
    (∀ j, j < 1 → stFailW.paragraphs[j]? = stMidW.paragraphs[j]?) ∧
    (∀ j p0, j < 1 → stW.paragraphs[j]? = some p0 →
      ∃ p', stFailW.paragraphs[j]? = some p' ∧
        p'.research.completed = true) :=
  c4_llm_failure_aborts_run cfgW envFailBW webOkW stW stMidW stFailW 1
    ⟨"summary failed"⟩ (by decide) rfl rfl

/-! ## Theorems for C2 (fallback assembly) -/

theorem format_report_manually_ne_empty (data : List (String × String))
    (t : String) : format_report_manually data t ≠ "" := by
  intro h
  have hlen := congrArg String.length h
  simp only [format_report_manually, String.length_append] at hlen
  have h1 : ("# " : String).length = 2 := rfl
  have h2 : ("" : String).length = 0 := rfl
  omega

theorem containsInOrder_prepend (pre s : String) (parts : List String)
    (h : ContainsInOrder s parts) : ContainsInOrder (pre ++ s) parts := by
  cases h with
  | nil s2 => exact .nil _
  | cons pre2 p rest parts2 h2 =>
    rw [← String.append_assoc]
    exact .cons (pre ++ pre2) p rest parts2 h2

theorem sectionsConcat_contains :
    ∀ ps : List Paragraph,
      ContainsInOrder (sectionsConcat (reportData { paragraphs := ps }))
        (titleSummaryList ps) := by
  intro ps
  induction ps with
  | nil => exact .nil _
  | cons p rest ih =>
    show ContainsInOrder
      ("## " ++ p.title ++ "\n\n" ++ p.research.latest_summary ++ "\n\n" ++
        sectionsConcat (reportData { paragraphs := rest }))
      (p.title :: p.research.latest_summary :: titleSummaryList rest)
    have hrest : ContainsInOrder
        ("\n\n" ++ (p.research.latest_summary ++ ("\n\n" ++
          sectionsConcat (reportData { paragraphs := rest }))))
        (p.research.latest_summary :: titleSummaryList rest) :=
      .cons "\n\n" p.research.latest_summary
        ("\n\n" ++ sectionsConcat (reportData { paragraphs := rest }))
        (titleSummaryList rest)
        (containsInOrder_prepend "\n\n" _ _ ih)
    have hmain := ContainsInOrder.cons "## " p.title
      ("\n\n" ++ (p.research.latest_summary ++ ("\n\n" ++
        sectionsConcat (reportData { paragraphs := rest }))))
      (p.title :: p.research.latest_summary :: titleSummaryList rest).tail
      hrest
    simpa [String.append_assoc] using hmain

/-- C2: if the report-formatting stage fails, final assembly falls back to
the deterministic total concatenation — the report title heading followed by
each section's title and latest summary in outline order — so the session
still gets a non-empty final report containing every section's title and
latest summary in order, and is marked completed. -/
theorem c2_fallback_assembly_total (env : LLMEnv) (st : State)
    (e : LLMFailure) (hfail : env.formatReport (reportData st) = .error e) :
    (generateFinalReport env st).final_report =
      format_report_manually (reportData st) st.report_title ∧
    (generateFinalReport env st).final_report ≠ "" ∧
    ContainsInOrder (generateFinalReport env st).final_report
      (titleSummaryList st.paragraphs) ∧
    (generateFinalReport env st).status = .completed := by
  have hdata : reportData st = reportData { paragraphs := st.paragraphs } := rfl
  have hfr : (generateFinalReport env st).final_report =
      format_report_manually (reportData st) st.report_title := by
    simp [generateFinalReport, hfail, State.mark_completed]
  refine ⟨hfr, ?_, ?_, rfl⟩
  · rw [hfr]
    exact format_report_manually_ne_empty _ _
  · rw [hfr]
    show ContainsInOrder
      ("# " ++ st.report_title ++ "\n\n" ++ sectionsConcat (reportData st))
      (titleSummaryList st.paragraphs)
    have hc := sectionsConcat_contains st.paragraphs
    rw [← hdata] at hc
    have := containsInOrder_prepend ("# " ++ st.report_title ++ "\n\n")
      (sectionsConcat (reportData st)) (titleSummaryList st.paragraphs) hc
    simpa [String.append_assoc] using this

/-- Witness for C2 at concrete inputs: the demo session assembled under the
LLM whose formatting stage always fails. -/
theorem c2_fallback_assembly_total_witness :
    (generateFinalReport envFailFormatW stW).final_report =
      format_report_manually (reportData stW) stW.report_title ∧
    (generateFinalReport envFailFormatW stW).final_report ≠ "" ∧
    ContainsInOrder (generateFinalReport envFailFormatW stW).final_report
      (titleSummaryList stW.paragraphs) ∧
    (generateFinalReport envFailFormatW stW).status = .completed :=
  c2_fallback_assembly_total envFailFormatW stW ⟨"formatting failed"⟩ rfl

/-! ## Theorems for C3 (session lifecycle invariant) -/

theorem initialSearchAndSummary_state_frame (cfg : Config) (env : LLMEnv)
    (web : SearchEnv) (st : State) (i : Nat) :
    (initialSearchAndSummary cfg env web st i).state.status = st.status ∧
    (initialSearchAndSummary cfg env web st i).state.final_report =
      st.final_report := by
  unfold initialSearchAndSummary
  cases st.paragraphs[i]? with
  | none => exact ⟨rfl, rfl⟩
  | some p =>
    dsimp only
    cases env.firstSearch p.title p.content with
    | error e => exact ⟨rfl, rfl⟩
    | ok o =>
      obtain ⟨sq, r⟩ := o
      dsimp only
      cases env.firstSummary p.title p.content sq
          (format_search_results_for_prompt (tavily_search (web.fetch sq))
            cfg.max_content_length) with
      | error e => exact ⟨rfl, rfl⟩
      | ok s => exact ⟨rfl, rfl⟩

theorem reflectionRound_state_frame (cfg : Config) (env : LLMEnv)
    (web : SearchEnv) (st : State) (i : Nat) :
    (reflectionRound cfg env web st i).state.status = st.status ∧
    (reflectionRound cfg env web st i).state.final_report =
      st.final_report := by
  unfold reflectionRound
  cases st.paragraphs[i]? with
  | none => exact ⟨rfl, rfl⟩
  | some p =>
    dsimp only
    cases env.reflection p.title p.content p.research.latest_summary with
    | error e => exact ⟨rfl, rfl⟩
    | ok o =>
      obtain ⟨sq, r⟩ := o
      dsimp only
      cases env.reflectionSummary p.title p.content sq
          (format_search_results_for_prompt (tavily_search (web.fetch sq))
            cfg.max_content_length) p.research.latest_summary with
      | error e => exact ⟨rfl, rfl⟩
      | ok s => exact ⟨rfl, rfl⟩

theorem generateReportStructure_state_cases (env : LLMEnv) (q : String)
    (st : State) :
    (generateReportStructure env q st).state = st ∨
    ((generateReportStructure env q st).state.status = .inProgress ∧
      (generateReportStructure env q st).state.final_report =
        st.final_report) := by
  unfold generateReportStructure
  cases env.outline q with
  | error e => exact Or.inl rfl
  | ok o =>
    obtain ⟨t, secs⟩ := o
    exact Or.inr ⟨rfl, rfl⟩

theorem generateFinalReport_completes (env : LLMEnv) (st : State) :
    (generateFinalReport env st).status = .completed := rfl

theorem generateFinalReport_final_report_ne (env : LLMEnv) (st : State)
    (hok : env.SummariesNonempty) :
    (generateFinalReport env st).final_report ≠ "" := by
  show (match env.formatReport (reportData st) with
    | .ok s => s
    | .error _ =>
        format_report_manually (reportData st) st.report_title) ≠ ""
  cases hf : env.formatReport (reportData st) with
  | ok s => exact hok.2.2 _ s hf
  | error e => exact format_report_manually_ne_empty _ _

theorem pipeStep_inv (cfg : Config) (env : LLMEnv) (web : SearchEnv)
    (q : String) (hok : env.SummariesNonempty) (st st' : State)
    (h : PipeStep cfg env web q st st')
    (hinv : st.final_report ≠ "" ↔ st.status = .completed) :
    st'.final_report ≠ "" ↔ st'.status = .completed := by
  cases h with
  | outlineStep hg =>
    rcases generateReportStructure_state_cases env q st with heq | ⟨hs, hf⟩
    · rw [heq]; exact hinv
    · have hfr : st.final_report = "" := by
        by_contra hne
        have h2 := hinv.mp hne
        rw [hg] at h2
        exact absurd h2 (by decide)
      rw [hs, hf, hfr]
      simp
  | initialStep i hg =>
    obtain ⟨hs, hf⟩ := initialSearchAndSummary_state_frame cfg env web st i
    rw [hs, hf]; exact hinv
  | reflectStep i hg =>
    obtain ⟨hs, hf⟩ := reflectionRound_state_frame cfg env web st i
    rw [hs, hf]; exact hinv
  | markStep i hg => exact hinv
  | assembleStep hg =>
    exact ⟨fun _ => rfl,
      fun _ => generateFinalReport_final_report_ne env st hok⟩

theorem pipeStep_status_mono (cfg : Config) (env : LLMEnv) (web : SearchEnv)
    (q : String) (st st' : State) (h : PipeStep cfg env web q st st') :
    st.status.toNat ≤ st'.status.toNat := by
  cases h with
  | outlineStep hg =>
    rcases generateReportStructure_state_cases env q st with heq | ⟨hs, _⟩
    · rw [heq]
    · rw [hs, hg]
      decide
  | initialStep i hg =>
    rw [(initialSearchAndSummary_state_frame cfg env web st i).1]
  | reflectStep i hg =>
    rw [(reflectionRound_state_frame cfg env web st i).1]
  | markStep i hg => exact Nat.le_refl _
  | assembleStep hg =>
    rw [hg]
    show Status.inProgress.toNat ≤ Status.completed.toNat
    decide

theorem pipeStep_final_report_set_with_completion (cfg : Config)
    (env : LLMEnv) (web : SearchEnv) (q : String) (st st' : State)
    (h : PipeStep cfg env web q st st') (hfr : st.final_report = "")
    (hfr' : st'.final_report ≠ "") : st'.status = .completed := by
  cases h with
  | outlineStep hg =>
    rcases generateReportStructure_state_cases env q st with heq | ⟨hs, hf⟩
    · rw [heq] at hfr'; exact absurd hfr hfr'
    · rw [hf] at hfr'; exact absurd hfr hfr'
  | initialStep i hg =>
    rw [(initialSearchAndSummary_state_frame cfg env web st i).2] at hfr'
    exact absurd hfr hfr'
  | reflectStep i hg =>
    rw [(reflectionRound_state_frame cfg env web st i).2] at hfr'
    exact absurd hfr hfr'
  | markStep i hg => exact absurd hfr hfr'
  | assembleStep hg => rfl

theorem pipeStep_final_report_preserved (cfg : Config) (env : LLMEnv)
    (web : SearchEnv) (q : String) (st st' : State)
    (hinv : st.final_report ≠ "" ↔ st.status = .completed)
    (h : PipeStep cfg env web q st st') (hfr : st.final_report ≠ "") :
    st'.final_report = st.final_report := by
  have hst := hinv.mp hfr
  cases h with
  | outlineStep hg => rw [hg] at hst; exact absurd hst (by decide)
  | initialStep i hg => rw [hg] at hst; exact absurd hst (by decide)
  | reflectStep i hg => rw [hg] at hst; exact absurd hst (by decide)
  | markStep i hg => rw [hg] at hst; exact absurd hst (by decide)
  | assembleStep hg => rw [hg] at hst; exact absurd hst (by decide)

/-- C3: along one research run, the session invariant holds at every
reachable state — final_report is non-empty exactly when the status is
Completed; the status never regresses across a transition; once set, the
final report is never changed by a further reachable transition; and the one
transition that sets final_report is the assembly transition, which marks the
session completed in the same step. -/
theorem c3_final_report_iff_completed (cfg : Config) (env : LLMEnv)
    (web : SearchEnv) (q : String) (hok : env.SummariesNonempty) :
    (∀ st, Reachable cfg env web q st →
      (st.final_report ≠ "" ↔ st.status = .completed)) ∧
    (∀ st st', PipeStep cfg env web q st st' →
      st.status.toNat ≤ st'.status.toNat) ∧
    (∀ st st', Reachable cfg env web q st → PipeStep cfg env web q st st' →
      st.final_report ≠ "" → st'.final_report = st.final_report) ∧
    (∀ st st', PipeStep cfg env web q st st' → st.final_report = "" →
      st'.final_report ≠ "" → st'.status = .completed) := by
  have hbase : (State.create q).final_report ≠ "" ↔
      (State.create q).status = .completed := by
    simp [State.create]
  have hreach : ∀ st, Reachable cfg env web q st →
      (st.final_report ≠ "" ↔ st.status = .completed) := by
    intro st h
    induction h with
    | refl => exact hbase
    | tail hsteps hstep ih =>
      exact pipeStep_inv cfg env web q hok _ _ hstep ih
  refine ⟨hreach, ?_, ?_, ?_⟩
  · intro st st' h
    exact pipeStep_status_mono cfg env web q st st' h
  · intro st st' hr h hfr
    exact pipeStep_final_report_preserved cfg env web q st st'
      (hreach st hr) h hfr
  · intro st st' h hfr hfr'
    exact pipeStep_final_report_set_with_completion cfg env web q st st'
      h hfr hfr'

/-- Witness for C3 at concrete inputs. -/
theorem c3_final_report_iff_completed_witness :
    (∀ st, Reachable cfgW envOkW webOkW "demo query" st →
      (st.final_report ≠ "" ↔ st.status = .completed)) ∧
    (∀ st st', PipeStep cfgW envOkW webOkW "demo query" st st' →
      st.status.toNat ≤ st'.status.toNat) ∧
    (∀ st st', Reachable cfgW envOkW webOkW "demo query" st →
      PipeStep cfgW envOkW webOkW "demo query" st st' →
      st.final_report ≠ "" → st'.final_report = st.final_report) ∧
    (∀ st st', PipeStep cfgW envOkW webOkW "demo query" st st' →
      st.final_report = "" → st'.final_report ≠ "" →
      st'.status = .completed) :=
  c3_final_report_iff_completed cfgW envOkW webOkW "demo query"
    ⟨by
      intro a b c d s h
      simp only [envOkW] at h
      injection h with h2
      subst h2
      decide,
     by
      intro a b c d e s h
      simp only [envOkW] at h
      injection h with h2
      subst h2
      decide,
     by
      intro d s h
      simp only [envOkW] at h
      injection h with h2
      subst h2
      decide⟩

/-! ## Theorems for C6 (persistence round-trip) -/

theorem exceptOkBind {ε α β : Type} (x : α) (f : α → Except ε β) :
    (Except.ok x >>= f) = f x := rfl

theorem decodeList_map {α : Type} (d : JVal → Except CorruptState α)
    (enc : α → JVal) (h : ∀ x, d (enc x) = .ok x) :
    ∀ xs : List α, decodeList d (xs.map enc) = .ok xs := by
  intro xs
  induction xs with
  | nil => rfl
  | cons x xs ih =>
    simp [decodeList, h x, ih, exceptOkBind]

theorem searchResult_roundtrip (r : SearchResult) :
    SearchResult.from_json (SearchResult.to_json r) = .ok r := by
  cases r with
  | mk u t c sc => cases sc <;> rfl

theorem searchEvent_roundtrip (ev : SearchEvent) :
    SearchEvent.from_json (SearchEvent.to_json ev) = .ok ev := by
  cases ev with
  | mk q rs =>
    simp [SearchEvent.to_json, SearchEvent.from_json, jfield, JVal.asStr,
      JVal.asArr, exceptOkBind,
      decodeList_map SearchResult.from_json SearchResult.to_json
        searchResult_roundtrip rs]

theorem asNat_natCast (n : Nat) : JVal.asNat (.jnum (n : Rat)) = .ok n := by
  simp [JVal.asNat, Rat.num_natCast, Int.toNat_natCast]

theorem research_roundtrip (r : Research) :
    Research.from_json (Research.to_json r) = .ok r := by
  cases r with
  | mk hist it summ comp =>
    simp [Research.to_json, Research.from_json, jfield, JVal.asStr,
      JVal.asArr, JVal.asBool, exceptOkBind, asNat_natCast,
      decodeList_map SearchEvent.from_json SearchEvent.to_json
        searchEvent_roundtrip hist]

theorem paragraph_roundtrip (p : Paragraph) :
    Paragraph.from_json (Paragraph.to_json p) = .ok p := by
  cases p with
  | mk t c r =>
    simp [Paragraph.to_json, Paragraph.from_json, jfield, JVal.asStr,
      exceptOkBind, research_roundtrip r]

theorem status_name_roundtrip (s : Status) :
    Status.fromName s.toName = .ok s := by
  cases s <;> rfl

/-- C6: loading a saved serialization reconstructs the session
field-for-field, for every session — in particular for every lifecycle
status, for histories containing a SearchEvent with an empty results list,
and for sections with reflection count zero. -/
theorem c6_save_load_roundtrip (st : State) :
    State.from_json (State.to_json st) = .ok st := by
  cases st with
  | mk q rt ps stat fr =>
    simp [State.to_json, State.from_json, jfield, JVal.asStr, JVal.asArr,
      exceptOkBind, status_name_roundtrip,
      decodeList_map Paragraph.from_json Paragraph.to_json
        paragraph_roundtrip ps]

/-! ## Theorems for C9 (progress query) -/

/-- C9: the progress query is a pure function of the session snapshot — the
agent call returns the session unchanged, calling it twice with no
intervening mutation yields the same record, and the record depends only on
the fields of the snapshot it reads (the sections and the status). -/
theorem c9_progress_query_pure :
    ∀ st : State,
      (agent_get_progress_summary st).2 = st ∧
      (agent_get_progress_summary ((agent_get_progress_summary st).2)).1 =
        (agent_get_progress_summary st).1 ∧
      ∀ q rt fr q2 rt2 fr2 (paras : List Paragraph) (status : Status),
        State.get_progress_summary ⟨q, rt, paras, status, fr⟩ =
          State.get_progress_summary ⟨q2, rt2, paras, status, fr2⟩ := by
  intro st
  exact ⟨rfl, rfl, fun q rt fr q2 rt2 fr2 paras status => rfl⟩

end DeepResearch
